import Mathlib

/-!
Shallow embedding of `bbbase64` (src/lib.rs), a no-std base64
encoder/decoder without padding, together with proofs of its
specification.

Bytes (`u8`) are modelled as `Nat` together with `< 256` bounds where
relevant; `Result<T, &'static str>` is modelled as `Except String T`;
byte slices are `List Nat`.  The mutable output buffer of `encode` /
`decode` is modelled by explicit state passing: both return the pair of
the `Result` and the final contents of the output buffer.
-/

set_option maxRecDepth 100000

namespace BBBase64

/-- `const UPPERCASEOFFSET: u8 = 65`. -/
def UPPERCASEOFFSET : Nat := 65

/-- `const LOWERCASEOFFSET: u8 = 71`. -/
def LOWERCASEOFFSET : Nat := 71

/-- `const DIGITOFFSET: u8 = 4`. -/
def DIGITOFFSET : Nat := 4

/-- `u8::saturating_add`, on byte values modelled as `Nat`. -/
def saturating_add (a b : Nat) : Nat := min (a + b) 255

/-- `u8::saturating_sub`, on byte values modelled as `Nat`
(`Nat` subtraction already saturates at zero). -/
def saturating_sub (a b : Nat) : Nat := a - b

/-- `fn index_to_char(index: u8) -> Result<u8, &'static str>`:
the match on `0..=25 | 26..=51 | 52..=61 | 62 | 63 | _`
rendered as a chain of range tests in the same order. -/
def index_to_char (index : Nat) : Except String Nat :=
  if index ≤ 25 then Except.ok (saturating_add index UPPERCASEOFFSET)
  else if index ≤ 51 then Except.ok (saturating_add index LOWERCASEOFFSET)
  else if index ≤ 61 then Except.ok (saturating_sub index DIGITOFFSET)
  else if index = 62 then Except.ok 43
  else if index = 63 then Except.ok 47
  else Except.error "Invalid ascii character index encountered"

/-- `fn char_to_index(c: u8) -> Result<u8, &'static str>`:
the match on `65..=90 | 97..=122 | 48..=57 | 43 | 47 | _`
rendered as a chain of range tests in the same order. -/
def char_to_index (c : Nat) : Except String Nat :=
  if 65 ≤ c ∧ c ≤ 90 then Except.ok (saturating_sub c UPPERCASEOFFSET)
  else if 97 ≤ c ∧ c ≤ 122 then Except.ok (saturating_sub c LOWERCASEOFFSET)
  else if 48 ≤ c ∧ c ≤ 57 then Except.ok (saturating_add c DIGITOFFSET)
  else if c = 43 then Except.ok 62
  else if c = 47 then Except.ok 63
  else Except.error "Invalid base64 char encountered"

/-- `fn split_bytes(chunk: &[u8]) -> [u8; 4]`, on a length-3 chunk
`[b0, b1, b2]`.  The four resulting 6-bit values are returned as a
tuple. -/
def split_bytes (b0 b1 b2 : Nat) : Nat × Nat × Nat × Nat :=
  (b0 >>> 2,
   ((b0 &&& 0b00000011) <<< 4) ||| (b1 >>> 4),
   ((b1 &&& 0b00001111) <<< 2) ||| (b2 >>> 6),
   b2 &&& 0b00111111)

/-- `fn combine_bytes(chunk: &[u8]) -> [u8; 3]`, on a length-4 chunk
`[c0, c1, c2, c3]`.  The three recombined bytes are returned as a
tuple. -/
def combine_bytes (c0 c1 c2 c3 : Nat) : Nat × Nat × Nat :=
  (((c0 &&& 0b00111111) <<< 2) ||| (c1 >>> 4),
   ((c1 &&& 0b00001111) <<< 4) ||| (c2 >>> 2),
   ((c2 &&& 0b00000011) <<< 6) ||| (c3 &&& 0b00111111))

/-- The chunk loop of `encode`: `for j in 0..nchunks { ... }`, processing
the input three bytes at a time.  Each iteration splits the chunk and
writes `index_to_char` of the four 6-bit values into the next four
output slots one at a time, propagating the first error with the output
buffer reflecting the writes already performed (`o[i] = index_to_char(expanded[i])?`). -/
def encode_go : List Nat → List Nat → Except String Unit × List Nat
  | b0 :: b1 :: b2 :: rest, out =>
    let (e0, e1, e2, e3) := split_bytes b0 b1 b2
    match index_to_char e0 with
    | Except.error er => (Except.error er, out)
    | Except.ok c0 =>
      match index_to_char e1 with
      | Except.error er => (Except.error er, c0 :: out.drop 1)
      | Except.ok c1 =>
        match index_to_char e2 with
        | Except.error er => (Except.error er, c0 :: c1 :: out.drop 2)
        | Except.ok c2 =>
          match index_to_char e3 with
          | Except.error er => (Except.error er, c0 :: c1 :: c2 :: out.drop 3)
          | Except.ok c3 =>
            match encode_go rest (out.drop 4) with
            | (res, outrest) => (res, c0 :: c1 :: c2 :: c3 :: outrest)
  | _, out => (Except.ok (), out)

/-- `pub fn encode(data: &[u8], out: &mut [u8]) -> Result<(), &'static str>`:
validates the two length conditions, then runs the chunk loop.
Returns the `Result` together with the final output buffer. -/
def encode (data out : List Nat) : Except String Unit × List Nat :=
  let nin := data.length
  let nout := out.length
  if nin % 3 ≠ 0 then
    (Except.error "Input data must be a multiple of 3 bytes", out)
  else if nout ≠ nin * 4 / 3 then
    (Except.error "Output data length should be 4/3 input data length", out)
  else
    encode_go data out

/-- The chunk loop of `decode`: processes the input four bytes at a time.
All four characters of a chunk are converted by `char_to_index` into the
scratch array (aborting on the first failure, before anything is written
to this chunk's output), then recombined and the three bytes written. -/
def decode_go : List Nat → List Nat → Except String Unit × List Nat
  | d0 :: d1 :: d2 :: d3 :: rest, out =>
    match char_to_index d0 with
    | Except.error er => (Except.error er, out)
    | Except.ok i0 =>
      match char_to_index d1 with
      | Except.error er => (Except.error er, out)
      | Except.ok i1 =>
        match char_to_index d2 with
        | Except.error er => (Except.error er, out)
        | Except.ok i2 =>
          match char_to_index d3 with
          | Except.error er => (Except.error er, out)
          | Except.ok i3 =>
            let (b0, b1, b2) := combine_bytes i0 i1 i2 i3
            match decode_go rest (out.drop 3) with
            | (res, outrest) => (res, b0 :: b1 :: b2 :: outrest)
  | _, out => (Except.ok (), out)

/-- `pub fn decode(data: &[u8], out: &mut [u8]) -> Result<(), &'static str>`:
validates the two length conditions, then runs the chunk loop.
Returns the `Result` together with the final output buffer. -/
def decode (data out : List Nat) : Except String Unit × List Nat :=
  let nin := data.length
  let nout := out.length
  if nin % 4 ≠ 0 then
    (Except.error "Input data must be a multiple of 4 bytes", out)
  else if nout ≠ nin * 3 / 4 then
    (Except.error "Output data length should be 3/4 input data length", out)
  else
    decode_go data out

deriving instance DecidableEq for Except

/-! ### Arithmetic characterization of the bit operations -/

theorem and_three (x : Nat) : x &&& 3 = x % 4 := by
  have h := Nat.and_pow_two_sub_one_eq_mod x 2
  norm_num at h
  exact h

theorem and_fifteen (x : Nat) : x &&& 15 = x % 16 := by
  have h := Nat.and_pow_two_sub_one_eq_mod x 4
  norm_num at h
  exact h

theorem and_sixtythree (x : Nat) : x &&& 63 = x % 64 := by
  have h := Nat.and_pow_two_sub_one_eq_mod x 6
  norm_num at h
  exact h

theorem shiftLeft_or_eq_add (a b k : Nat) (h : b < 2 ^ k) :
    (a <<< k) ||| b = a * 2 ^ k + b := by
  rw [Nat.shiftLeft_eq]
  calc a * 2 ^ k ||| b = 2 ^ k * a ||| b := by rw [Nat.mul_comm]
    _ = 2 ^ k * a + b := (Nat.mul_add_lt_is_or h a).symm
    _ = a * 2 ^ k + b := by rw [Nat.mul_comm]

theorem split_bytes_eq (b0 b1 b2 : Nat) (h1 : b1 < 256) (h2 : b2 < 256) :
    split_bytes b0 b1 b2 =
      (b0 / 4, b0 % 4 * 16 + b1 / 16, b1 % 16 * 4 + b2 / 64, b2 % 64) := by
  have e0 : b0 >>> 2 = b0 / 4 := by
    rw [Nat.shiftRight_eq_div_pow]
  have hb1 : b1 >>> 4 < 2 ^ 4 := by
    rw [Nat.shiftRight_eq_div_pow]
    omega
  have e1 : ((b0 &&& 3) <<< 4) ||| (b1 >>> 4) = b0 % 4 * 16 + b1 / 16 := by
    rw [shiftLeft_or_eq_add _ _ _ hb1, and_three, Nat.shiftRight_eq_div_pow]
    norm_num
  have hb2 : b2 >>> 6 < 2 ^ 2 := by
    rw [Nat.shiftRight_eq_div_pow]
    omega
  have e2 : ((b1 &&& 15) <<< 2) ||| (b2 >>> 6) = b1 % 16 * 4 + b2 / 64 := by
    rw [shiftLeft_or_eq_add _ _ _ hb2, and_fifteen, Nat.shiftRight_eq_div_pow]
    norm_num
  have e3 : b2 &&& 63 = b2 % 64 := and_sixtythree b2
  simp only [split_bytes, e0, e1, e2, e3]

theorem combine_bytes_eq (c0 c1 c2 c3 : Nat) (h1 : c1 < 64) (h2 : c2 < 64) :
    combine_bytes c0 c1 c2 c3 =
      (c0 % 64 * 4 + c1 / 16, c1 % 16 * 16 + c2 / 4, c2 % 4 * 64 + c3 % 64) := by
  have hc1 : c1 >>> 4 < 2 ^ 2 := by
    rw [Nat.shiftRight_eq_div_pow]
    omega
  have e0 : ((c0 &&& 63) <<< 2) ||| (c1 >>> 4) = c0 % 64 * 4 + c1 / 16 := by
    rw [shiftLeft_or_eq_add _ _ _ hc1, and_sixtythree, Nat.shiftRight_eq_div_pow]
    norm_num
  have hc2 : c2 >>> 2 < 2 ^ 4 := by
    rw [Nat.shiftRight_eq_div_pow]
    omega
  have e1 : ((c1 &&& 15) <<< 4) ||| (c2 >>> 2) = c1 % 16 * 16 + c2 / 4 := by
    rw [shiftLeft_or_eq_add _ _ _ hc2, and_fifteen, Nat.shiftRight_eq_div_pow]
    norm_num
  have hc3 : c3 &&& 63 < 2 ^ 6 := by
    rw [and_sixtythree]
    omega
  have e2 : ((c2 &&& 3) <<< 6) ||| (c3 &&& 63) = c2 % 4 * 64 + c3 % 64 := by
    rw [shiftLeft_or_eq_add _ _ _ hc3, and_three, and_sixtythree]
    norm_num
  simp only [combine_bytes, e0, e1, e2]

theorem split_bytes_lt (b0 b1 b2 : Nat) (h0 : b0 < 256) (h1 : b1 < 256) (h2 : b2 < 256) :
    (split_bytes b0 b1 b2).1 < 64 ∧ (split_bytes b0 b1 b2).2.1 < 64 ∧
      (split_bytes b0 b1 b2).2.2.1 < 64 ∧ (split_bytes b0 b1 b2).2.2.2 < 64 := by
  rw [split_bytes_eq b0 b1 b2 h1 h2]
  dsimp only
  omega

theorem combine_split (b0 b1 b2 : Nat) (h0 : b0 < 256) (h1 : b1 < 256) (h2 : b2 < 256) :
    combine_bytes (split_bytes b0 b1 b2).1 (split_bytes b0 b1 b2).2.1
      (split_bytes b0 b1 b2).2.2.1 (split_bytes b0 b1 b2).2.2.2 = (b0, b1, b2) := by
  rw [split_bytes_eq b0 b1 b2 h1 h2]
  dsimp only
  rw [combine_bytes_eq _ _ _ _ (by omega) (by omega)]
  simp only [Prod.mk.injEq]
  omega

theorem split_combine (c0 c1 c2 c3 : Nat)
    (h0 : c0 < 64) (h1 : c1 < 64) (h2 : c2 < 64) (h3 : c3 < 64) :
    split_bytes (combine_bytes c0 c1 c2 c3).1 (combine_bytes c0 c1 c2 c3).2.1
      (combine_bytes c0 c1 c2 c3).2.2 = (c0, c1, c2, c3) := by
  rw [combine_bytes_eq c0 c1 c2 c3 h1 h2]
  dsimp only
  rw [split_bytes_eq _ _ _ (by omega) (by omega)]
  simp only [Prod.mk.injEq]
  omega

/-! ### Symbol mapper facts -/

theorem itc_ctc_bind : ∀ i : Nat, i < 64 →
    (index_to_char i).bind char_to_index = Except.ok i := by decide

/-- Any 6-bit value has a character, and mapping it back recovers the value. -/
theorem itc_ctc (i : Nat) (h : i < 64) :
    ∃ c, index_to_char i = Except.ok c ∧ char_to_index c = Except.ok i := by
  have hb := itc_ctc_bind i h
  cases hc : index_to_char i with
  | error e =>
    rw [hc] at hb
    simp [Except.bind] at hb
  | ok c =>
    rw [hc] at hb
    exact ⟨c, rfl, hb⟩

/-- `index_to_char` either succeeds or fails with its single error message. -/
theorem itc_cases (i : Nat) :
    (∃ c, index_to_char i = Except.ok c) ∨
      index_to_char i = Except.error "Invalid ascii character index encountered" := by
  unfold index_to_char
  split_ifs <;> first | (left; exact ⟨_, rfl⟩) | (right; rfl)

/-- `char_to_index` either succeeds or fails with its single error message. -/
theorem ctc_cases (c : Nat) :
    (∃ i, char_to_index c = Except.ok i ∧ i < 64) ∨
      char_to_index c = Except.error "Invalid base64 char encountered" := by
  unfold char_to_index saturating_add saturating_sub UPPERCASEOFFSET LOWERCASEOFFSET DIGITOFFSET
  split_ifs with h1 h2 h3 h4 h5
  · exact Or.inl ⟨c - 65, rfl, by omega⟩
  · exact Or.inl ⟨c - 71, rfl, by omega⟩
  · exact Or.inl ⟨min (c + 4) 255, rfl, by omega⟩
  · exact Or.inl ⟨62, rfl, by omega⟩
  · exact Or.inl ⟨63, rfl, by omega⟩
  · exact Or.inr rfl

/-- A 6-bit index never maps to an error. -/
theorem itc_ne_error (i : Nat) (h : i < 64) (er : String) :
    index_to_char i ≠ Except.error er := by
  obtain ⟨c, hc, -⟩ := itc_ctc i h
  rw [hc]
  simp

/-- Mapping a character produced by `index_to_char` back with
`char_to_index` recovers the index. -/
theorem ctc_of_itc (i c : Nat) (h : i < 64) (hc : index_to_char i = Except.ok c) :
    char_to_index c = Except.ok i := by
  obtain ⟨c', hc', hcc⟩ := itc_ctc i h
  rw [hc] at hc'
  injection hc' with h'
  rw [← h'] at hcc
  exact hcc

/-- Component bounds of `split_bytes`, stated for a destructured result. -/
theorem split_comp_lt (b0 b1 b2 e0 e1 e2 e3 : Nat)
    (h0 : b0 < 256) (h1 : b1 < 256) (h2 : b2 < 256)
    (hsp : split_bytes b0 b1 b2 = (e0, e1, e2, e3)) :
    e0 < 64 ∧ e1 < 64 ∧ e2 < 64 ∧ e3 < 64 := by
  have h := split_bytes_lt b0 b1 b2 h0 h1 h2
  rw [hsp] at h
  exact h

/-- `combine_bytes` undoes `split_bytes`, stated for a destructured result. -/
theorem combine_of_split (b0 b1 b2 e0 e1 e2 e3 : Nat)
    (h0 : b0 < 256) (h1 : b1 < 256) (h2 : b2 < 256)
    (hsp : split_bytes b0 b1 b2 = (e0, e1, e2, e3)) :
    combine_bytes e0 e1 e2 e3 = (b0, b1, b2) := by
  have h := combine_split b0 b1 b2 h0 h1 h2
  rw [hsp] at h
  exact h

/-- The encode loop leaves the buffer untouched on inputs shorter than one chunk. -/
theorem encode_go_short (t out : List Nat)
    (h : ∀ b0 b1 b2 rest, t ≠ b0 :: b1 :: b2 :: rest) :
    encode_go t out = (Except.ok (), out) := by
  rcases t with _ | ⟨a, _ | ⟨b, _ | ⟨c, rest⟩⟩⟩
  · rfl
  · rfl
  · rfl
  · exact absurd rfl (h a b c rest)

/-- The decode loop leaves the buffer untouched on inputs shorter than one chunk. -/
theorem decode_go_short (t out : List Nat)
    (h : ∀ d0 d1 d2 d3 rest, t ≠ d0 :: d1 :: d2 :: d3 :: rest) :
    decode_go t out = (Except.ok (), out) := by
  rcases t with _ | ⟨a, _ | ⟨b, _ | ⟨c, _ | ⟨d, rest⟩⟩⟩⟩
  · rfl
  · rfl
  · rfl
  · rfl
  · exact absurd rfl (h a b c d rest)

/-- Main loop invariant: on byte input of length `3 k`, the encode loop
succeeds, overwrites exactly the first `4 k` output slots with the
encoded characters, and the decode loop inverts the written characters
on any buffer, restoring the input over the first `3 k` slots. -/
theorem encode_go_spec : ∀ (data out : List Nat), (∀ b ∈ data, b < 256) →
    data.length % 3 = 0 →
    ∃ enc : List Nat,
      encode_go data out = (Except.ok (), enc ++ out.drop (data.length * 4 / 3)) ∧
      enc.length = data.length * 4 / 3 ∧
      ∀ out2 : List Nat, decode_go enc out2 = (Except.ok (), data ++ out2.drop data.length) := by
  intro data out
  induction data, out using encode_go.induct with
  | case1 b0 b1 b2 rest out e0 e1 e2 e3 hsp er herr =>
    intro hb _
    have hlt := split_comp_lt b0 b1 b2 e0 e1 e2 e3
      (hb b0 (by simp)) (hb b1 (by simp)) (hb b2 (by simp)) hsp
    exact absurd herr (itc_ne_error e0 hlt.1 er)
  | case2 b0 b1 b2 rest out e0 e1 e2 e3 hsp c0 hc0 er herr =>
    intro hb _
    have hlt := split_comp_lt b0 b1 b2 e0 e1 e2 e3
      (hb b0 (by simp)) (hb b1 (by simp)) (hb b2 (by simp)) hsp
    exact absurd herr (itc_ne_error e1 hlt.2.1 er)
  | case3 b0 b1 b2 rest out e0 e1 e2 e3 hsp c0 hc0 c1 hc1 er herr =>
    intro hb _
    have hlt := split_comp_lt b0 b1 b2 e0 e1 e2 e3
      (hb b0 (by simp)) (hb b1 (by simp)) (hb b2 (by simp)) hsp
    exact absurd herr (itc_ne_error e2 hlt.2.2.1 er)
  | case4 b0 b1 b2 rest out e0 e1 e2 e3 hsp c0 hc0 c1 hc1 c2 hc2 er herr =>
    intro hb _
    have hlt := split_comp_lt b0 b1 b2 e0 e1 e2 e3
      (hb b0 (by simp)) (hb b1 (by simp)) (hb b2 (by simp)) hsp
    exact absurd herr (itc_ne_error e3 hlt.2.2.2 er)
  | case5 b0 b1 b2 rest out e0 e1 e2 e3 hsp c0 hc0 c1 hc1 c2 hc2 c3 hc3 res outrest hrec ih =>
    intro hb hlen
    have hb0 : b0 < 256 := hb b0 (by simp)
    have hb1 : b1 < 256 := hb b1 (by simp)
    have hb2 : b2 < 256 := hb b2 (by simp)
    have hlt := split_comp_lt b0 b1 b2 e0 e1 e2 e3 hb0 hb1 hb2 hsp
    have hlen3 : rest.length % 3 = 0 := by
      simp only [List.length_cons] at hlen
      omega
    obtain ⟨enc', henc', hlen', hdec'⟩ :=
      ih (fun b hb' => hb b (by simp [hb'])) hlen3
    have harith : (b0 :: b1 :: b2 :: rest).length * 4 / 3 = rest.length * 4 / 3 + 4 := by
      simp only [List.length_cons]
      omega
    refine ⟨c0 :: c1 :: c2 :: c3 :: enc', ?_, ?_, ?_⟩
    · simp only [encode_go, hsp, hc0, hc1, hc2, hc3, henc', harith]
      simp only [List.drop_drop, List.cons_append, Prod.mk.injEq, true_and, List.append_cancel_left_eq]
      rw [show 4 + rest.length * 4 / 3 = rest.length * 4 / 3 + 4 from by omega]
    · simp only [List.length_cons, hlen']
      omega
    · intro out2
      have hctc0 : char_to_index c0 = Except.ok e0 := ctc_of_itc e0 c0 hlt.1 hc0
      have hctc1 : char_to_index c1 = Except.ok e1 := ctc_of_itc e1 c1 hlt.2.1 hc1
      have hctc2 : char_to_index c2 = Except.ok e2 := ctc_of_itc e2 c2 hlt.2.2.1 hc2
      have hctc3 : char_to_index c3 = Except.ok e3 := ctc_of_itc e3 c3 hlt.2.2.2 hc3
      have hcomb := combine_of_split b0 b1 b2 e0 e1 e2 e3 hb0 hb1 hb2 hsp
      simp only [decode_go, hctc0, hctc1, hctc2, hctc3, hcomb, hdec' (out2.drop 3)]
      simp only [List.drop_drop, List.cons_append, List.length_cons, Prod.mk.injEq, true_and,
        List.append_cancel_left_eq]
      rw [show 3 + rest.length = rest.length + 1 + 1 + 1 from by omega]
  | case6 t out hne =>
    intro hb hlen
    rcases t with _ | ⟨a, _ | ⟨b, _ | ⟨c, rest⟩⟩⟩
    · exact ⟨[], by simp [encode_go], by simp, fun out2 => by simp [decode_go]⟩
    · simp at hlen
    · simp at hlen
    · exact absurd rfl (hne a b c rest)

/-- The only error the encode loop can produce is the invalid-index
message of `index_to_char`. -/
theorem encode_go_error : ∀ data out : List Nat, ∀ e : String,
    (encode_go data out).1 = Except.error e →
    e = "Invalid ascii character index encountered" := by
  intro data out
  induction data, out using encode_go.induct with
  | case1 b0 b1 b2 rest out e0 e1 e2 e3 hsp er herr =>
    intro e he
    simp only [encode_go, hsp, herr] at he
    obtain ⟨c, hc⟩ | hmsg := itc_cases e0
    · rw [hc] at herr
      cases herr
    · rw [hmsg] at herr
      injection herr with h
      injection he with he'
      rw [← he', ← h]
  | case2 b0 b1 b2 rest out e0 e1 e2 e3 hsp c0 hc0 er herr =>
    intro e he
    simp only [encode_go, hsp, hc0, herr] at he
    obtain ⟨c, hc⟩ | hmsg := itc_cases e1
    · rw [hc] at herr
      cases herr
    · rw [hmsg] at herr
      injection herr with h
      injection he with he'
      rw [← he', ← h]
  | case3 b0 b1 b2 rest out e0 e1 e2 e3 hsp c0 hc0 c1 hc1 er herr =>
    intro e he
    simp only [encode_go, hsp, hc0, hc1, herr] at he
    obtain ⟨c, hc⟩ | hmsg := itc_cases e2
    · rw [hc] at herr
      cases herr
    · rw [hmsg] at herr
      injection herr with h
      injection he with he'
      rw [← he', ← h]
  | case4 b0 b1 b2 rest out e0 e1 e2 e3 hsp c0 hc0 c1 hc1 c2 hc2 er herr =>
    intro e he
    simp only [encode_go, hsp, hc0, hc1, hc2, herr] at he
    obtain ⟨c, hc⟩ | hmsg := itc_cases e3
    · rw [hc] at herr
      cases herr
    · rw [hmsg] at herr
      injection herr with h
      injection he with he'
      rw [← he', ← h]
  | case5 b0 b1 b2 rest out e0 e1 e2 e3 hsp c0 hc0 c1 hc1 c2 hc2 c3 hc3 res outrest hrec ih =>
    intro e he
    simp only [encode_go, hsp, hc0, hc1, hc2, hc3, hrec] at he
    exact ih e (by rw [hrec]; exact he)
  | case6 t out hne =>
    intro e he
    rw [encode_go_short t out fun a b c rest h => hne a b c rest h] at he
    cases he

/-- The only error the decode loop can produce is the invalid-character
message of `char_to_index`. -/
theorem decode_go_error : ∀ data out : List Nat, ∀ e : String,
    (decode_go data out).1 = Except.error e →
    e = "Invalid base64 char encountered" := by
  intro data out
  induction data, out using decode_go.induct with
  | case1 d0 d1 d2 d3 rest out er herr =>
    intro e he
    simp only [decode_go, herr] at he
    obtain ⟨i, hi, -⟩ | hmsg := ctc_cases d0
    · rw [hi] at herr
      cases herr
    · rw [hmsg] at herr
      injection herr with h
      injection he with he'
      rw [← he', ← h]
  | case2 d0 d1 d2 d3 rest out i0 hd0 er herr =>
    intro e he
    simp only [decode_go, hd0, herr] at he
    obtain ⟨i, hi, -⟩ | hmsg := ctc_cases d1
    · rw [hi] at herr
      cases herr
    · rw [hmsg] at herr
      injection herr with h
      injection he with he'
      rw [← he', ← h]
  | case3 d0 d1 d2 d3 rest out i0 hd0 i1 hd1 er herr =>
    intro e he
    simp only [decode_go, hd0, hd1, herr] at he
    obtain ⟨i, hi, -⟩ | hmsg := ctc_cases d2
    · rw [hi] at herr
      cases herr
    · rw [hmsg] at herr
      injection herr with h
      injection he with he'
      rw [← he', ← h]
  | case4 d0 d1 d2 d3 rest out i0 hd0 i1 hd1 i2 hd2 er herr =>
    intro e he
    simp only [decode_go, hd0, hd1, hd2, herr] at he
    obtain ⟨i, hi, -⟩ | hmsg := ctc_cases d3
    · rw [hi] at herr
      cases herr
    · rw [hmsg] at herr
      injection herr with h
      injection he with he'
      rw [← he', ← h]
  | case5 d0 d1 d2 d3 rest out i0 hd0 i1 hd1 i2 hd2 i3 hd3 b0 b1 b2 hcomb res outrest hrec ih =>
    intro e he
    simp only [decode_go, hd0, hd1, hd2, hd3, hcomb, hrec] at he
    exact ih e (by rw [hrec]; exact he)
  | case6 t out hne =>
    intro e he
    rw [decode_go_short t out fun a b c d rest h => hne a b c d rest h] at he
    cases he

/-- If every input byte is a valid base64 character, the decode loop succeeds. -/
theorem decode_go_ok : ∀ data out : List Nat,
    (∀ c ∈ data, ∃ i, char_to_index c = Except.ok i) →
    (decode_go data out).1 = Except.ok () := by
  intro data out
  induction data, out using decode_go.induct with
  | case1 d0 d1 d2 d3 rest out er herr =>
    intro hv
    obtain ⟨i, hi⟩ := hv d0 (by simp)
    rw [hi] at herr
    cases herr
  | case2 d0 d1 d2 d3 rest out i0 hd0 er herr =>
    intro hv
    obtain ⟨i, hi⟩ := hv d1 (by simp)
    rw [hi] at herr
    cases herr
  | case3 d0 d1 d2 d3 rest out i0 hd0 i1 hd1 er herr =>
    intro hv
    obtain ⟨i, hi⟩ := hv d2 (by simp)
    rw [hi] at herr
    cases herr
  | case4 d0 d1 d2 d3 rest out i0 hd0 i1 hd1 i2 hd2 er herr =>
    intro hv
    obtain ⟨i, hi⟩ := hv d3 (by simp)
    rw [hi] at herr
    cases herr
  | case5 d0 d1 d2 d3 rest out i0 hd0 i1 hd1 i2 hd2 i3 hd3 b0 b1 b2 hcomb res outrest hrec ih =>
    intro hv
    have hres := ih (fun c hc => hv c (by simp [hc]))
    rw [hrec] at hres
    simp only [decode_go, hd0, hd1, hd2, hd3, hcomb, hrec]
    exact hres
  | case6 t out hne =>
    intro hv
    rw [decode_go_short t out fun a b c d rest h => hne a b c d rest h]

/-- If the input length is a whole number of chunks and some byte is not a
valid base64 character, the decode loop fails with the invalid-character
message. -/
theorem decode_go_err : ∀ data out : List Nat, data.length % 4 = 0 →
    (∃ c ∈ data, ∀ i, char_to_index c ≠ Except.ok i) →
    (decode_go data out).1 = Except.error "Invalid base64 char encountered" := by
  intro data out
  induction data, out using decode_go.induct with
  | case1 d0 d1 d2 d3 rest out er herr =>
    intro _ _
    simp only [decode_go, herr]
    obtain ⟨i, hi, -⟩ | hmsg := ctc_cases d0
    · rw [hi] at herr
      cases herr
    · rw [hmsg] at herr
      injection herr with h
      rw [← h]
  | case2 d0 d1 d2 d3 rest out i0 hd0 er herr =>
    intro _ _
    simp only [decode_go, hd0, herr]
    obtain ⟨i, hi, -⟩ | hmsg := ctc_cases d1
    · rw [hi] at herr
      cases herr
    · rw [hmsg] at herr
      injection herr with h
      rw [← h]
  | case3 d0 d1 d2 d3 rest out i0 hd0 i1 hd1 er herr =>
    intro _ _
    simp only [decode_go, hd0, hd1, herr]
    obtain ⟨i, hi, -⟩ | hmsg := ctc_cases d2
    · rw [hi] at herr
      cases herr
    · rw [hmsg] at herr
      injection herr with h
      rw [← h]
  | case4 d0 d1 d2 d3 rest out i0 hd0 i1 hd1 i2 hd2 er herr =>
    intro _ _
    simp only [decode_go, hd0, hd1, hd2, herr]
    obtain ⟨i, hi, -⟩ | hmsg := ctc_cases d3
    · rw [hi] at herr
      cases herr
    · rw [hmsg] at herr
      injection herr with h
      rw [← h]
  | case5 d0 d1 d2 d3 rest out i0 hd0 i1 hd1 i2 hd2 i3 hd3 b0 b1 b2 hcomb res outrest hrec ih =>
    intro hlen hex
    obtain ⟨c, hc, hinv⟩ := hex
    simp only [List.mem_cons] at hc
    have hcrest : c ∈ rest := by
      rcases hc with h | h | h | h | h
      · exact absurd hd0 (h ▸ hinv i0)
      · exact absurd hd1 (h ▸ hinv i1)
      · exact absurd hd2 (h ▸ hinv i2)
      · exact absurd hd3 (h ▸ hinv i3)
      · exact h
    have hlen4 : rest.length % 4 = 0 := by
      simp only [List.length_cons] at hlen
      omega
    have hres := ih hlen4 ⟨c, hcrest, hinv⟩
    rw [hrec] at hres
    simp only [decode_go, hd0, hd1, hd2, hd3, hcomb, hrec]
    exact hres
  | case6 t out hne =>
    intro hlen hex
    have ht : t = [] := by
      rcases t with _ | ⟨a, _ | ⟨b, _ | ⟨c, _ | ⟨d, rest⟩⟩⟩⟩
      · rfl
      · simp at hlen
      · simp at hlen
      · simp at hlen
      · exact absurd rfl (hne a b c d rest)
    subst ht
    simp at hex

/-- Frame property of the decode loop: on a whole number of chunks, a
failure at chunk `j` leaves the first `3 j` output slots holding the
correctly decoded prefix and every later slot untouched, and chunk `j`
of the input contains the offending character. -/
theorem decode_go_frame : ∀ data out : List Nat, data.length % 4 = 0 → ∀ e : String,
    (decode_go data out).1 = Except.error e →
    ∃ j : Nat, 4 * j + 4 ≤ data.length ∧
      (∃ c ∈ (data.drop (4 * j)).take 4, char_to_index c = Except.error e) ∧
      decode_go (data.take (4 * j)) (out.take (3 * j)) =
        (Except.ok (), (decode_go data out).2.take (3 * j)) ∧
      (decode_go data out).2.drop (3 * j) = out.drop (3 * j) := by
  intro data out
  induction data, out using decode_go.induct with
  | case1 d0 d1 d2 d3 rest out er herr =>
    intro hlen e he
    have hred : decode_go (d0 :: d1 :: d2 :: d3 :: rest) out = (Except.error er, out) := by
      simp only [decode_go, herr]
    rw [hred] at he
    injection he with he'
    refine ⟨0, by simp, ⟨d0, by simp, by rw [herr, he']⟩, ?_, ?_⟩
    · rw [hred]
      simp [decode_go]
    · rw [hred]
  | case2 d0 d1 d2 d3 rest out i0 hd0 er herr =>
    intro hlen e he
    have hred : decode_go (d0 :: d1 :: d2 :: d3 :: rest) out = (Except.error er, out) := by
      simp only [decode_go, hd0, herr]
    rw [hred] at he
    injection he with he'
    refine ⟨0, by simp, ⟨d1, by simp, by rw [herr, he']⟩, ?_, ?_⟩
    · rw [hred]
      simp [decode_go]
    · rw [hred]
  | case3 d0 d1 d2 d3 rest out i0 hd0 i1 hd1 er herr =>
    intro hlen e he
    have hred : decode_go (d0 :: d1 :: d2 :: d3 :: rest) out = (Except.error er, out) := by
      simp only [decode_go, hd0, hd1, herr]
    rw [hred] at he
    injection he with he'
    refine ⟨0, by simp, ⟨d2, by simp, by rw [herr, he']⟩, ?_, ?_⟩
    · rw [hred]
      simp [decode_go]
    · rw [hred]
  | case4 d0 d1 d2 d3 rest out i0 hd0 i1 hd1 i2 hd2 er herr =>
    intro hlen e he
    have hred : decode_go (d0 :: d1 :: d2 :: d3 :: rest) out = (Except.error er, out) := by
      simp only [decode_go, hd0, hd1, hd2, herr]
    rw [hred] at he
    injection he with he'
    refine ⟨0, by simp, ⟨d3, by simp, by rw [herr, he']⟩, ?_, ?_⟩
    · rw [hred]
      simp [decode_go]
    · rw [hred]
  | case5 d0 d1 d2 d3 rest out i0 hd0 i1 hd1 i2 hd2 i3 hd3 b0 b1 b2 hcomb res outrest hrec ih =>
    intro hlen e he
    have hred : decode_go (d0 :: d1 :: d2 :: d3 :: rest) out = (res, b0 :: b1 :: b2 :: outrest) := by
      simp only [decode_go, hd0, hd1, hd2, hd3, hcomb, hrec]
    rw [hred] at he
    have hlen4 : rest.length % 4 = 0 := by
      simp only [List.length_cons] at hlen
      omega
    have herr' : (decode_go rest (out.drop 3)).1 = Except.error e := by
      rw [hrec]
      exact he
    obtain ⟨j, hj1, ⟨c, hc, hcer⟩, hj3, hj4⟩ := ih hlen4 e herr'
    rw [hrec] at hj3 hj4
    refine ⟨j + 1, ?_, ⟨c, ?_, hcer⟩, ?_, ?_⟩
    · simp only [List.length_cons]
      omega
    · have hdr : (d0 :: d1 :: d2 :: d3 :: rest).drop (4 * (j + 1)) = rest.drop (4 * j) := by
        rw [show 4 * (j + 1) = 4 * j + 1 + 1 + 1 + 1 from by ring]
        simp only [List.drop_succ_cons]
      rw [hdr]
      exact hc
    · rw [hred]
      rw [show 4 * (j + 1) = 4 * j + 1 + 1 + 1 + 1 from by ring,
        show 3 * (j + 1) = 3 * j + 1 + 1 + 1 from by ring]
      simp only [List.take_succ_cons]
      simp only [decode_go, hd0, hd1, hd2, hd3, hcomb]
      have htd : (out.take (3 * j + 1 + 1 + 1)).drop 3 = (out.drop 3).take (3 * j) := by
        rw [show 3 * j + 1 + 1 + 1 = 3 + 3 * j from by ring, ← List.take_drop]
      rw [htd, hj3]
    · rw [hred]
      rw [show 3 * (j + 1) = 3 * j + 1 + 1 + 1 from by ring]
      simp only [List.drop_succ_cons]
      rw [hj4, List.drop_drop]
      congr 1
      omega
  | case6 t out hne =>
    intro hlen e he
    have ht : t = [] := by
      rcases t with _ | ⟨a, _ | ⟨b, _ | ⟨c, _ | ⟨d, rest⟩⟩⟩⟩
      · rfl
      · simp at hlen
      · simp at hlen
      · simp at hlen
      · exact absurd rfl (hne a b c d rest)
    subst ht
    simp [decode_go] at he

/-- When both length checks pass, `encode` runs its chunk loop. -/
theorem encode_eq_go (data out : List Nat) (h3 : data.length % 3 = 0)
    (hout : out.length = data.length * 4 / 3) :
    encode data out = encode_go data out := by
  simp only [encode]
  rw [if_neg (by omega), if_neg (by omega)]

/-- When both length checks pass, `decode` runs its chunk loop. -/
theorem decode_eq_go (data out : List Nat) (h4 : data.length % 4 = 0)
    (hout : out.length = data.length * 3 / 4) :
    decode data out = decode_go data out := by
  simp only [decode]
  rw [if_neg (by omega), if_neg (by omega)]

/-- Case analysis of `encode`'s validation prologue. -/
theorem encode_cases (data out : List Nat) :
    (data.length % 3 ≠ 0 ∧
      encode data out = (Except.error "Input data must be a multiple of 3 bytes", out)) ∨
    (data.length % 3 = 0 ∧ out.length ≠ data.length * 4 / 3 ∧
      encode data out = (Except.error "Output data length should be 4/3 input data length", out)) ∨
    (data.length % 3 = 0 ∧ out.length = data.length * 4 / 3 ∧
      encode data out = encode_go data out) := by
  by_cases h3 : data.length % 3 = 0
  · by_cases hout : out.length = data.length * 4 / 3
    · exact Or.inr (Or.inr ⟨h3, hout, encode_eq_go data out h3 hout⟩)
    · refine Or.inr (Or.inl ⟨h3, hout, ?_⟩)
      simp only [encode]
      rw [if_neg (by omega), if_pos hout]
  · refine Or.inl ⟨h3, ?_⟩
    simp only [encode]
    rw [if_pos h3]

/-- Case analysis of `decode`'s validation prologue. -/
theorem decode_cases (data out : List Nat) :
    (data.length % 4 ≠ 0 ∧
      decode data out = (Except.error "Input data must be a multiple of 4 bytes", out)) ∨
    (data.length % 4 = 0 ∧ out.length ≠ data.length * 3 / 4 ∧
      decode data out = (Except.error "Output data length should be 3/4 input data length", out)) ∨
    (data.length % 4 = 0 ∧ out.length = data.length * 3 / 4 ∧
      decode data out = decode_go data out) := by
  by_cases h4 : data.length % 4 = 0
  · by_cases hout : out.length = data.length * 3 / 4
    · exact Or.inr (Or.inr ⟨h4, hout, decode_eq_go data out h4 hout⟩)
    · refine Or.inr (Or.inl ⟨h4, hout, ?_⟩)
      simp only [decode]
      rw [if_neg (by omega), if_pos hout]
  · refine Or.inl ⟨h4, ?_⟩
    simp only [decode]
    rw [if_pos h4]

/-! ### Claims settled by finite checking -/

/-- Claim C2: the symbol mapping is a bijection over exactly 64 values:
`char_to_index (index_to_char i) = i` for every `i` in `[0, 63]`, and
`index_to_char (char_to_index c) = c` for every byte `c` of the base64
alphabet `A-Z`, `a-z`, `0-9`, `+`, `/`. -/
theorem c2_bijection :
    (∀ i : Nat, i ≤ 63 → (index_to_char i).bind char_to_index = Except.ok i) ∧
    (∀ c : Nat,
      ((65 ≤ c ∧ c ≤ 90) ∨ (97 ≤ c ∧ c ≤ 122) ∨ (48 ≤ c ∧ c ≤ 57) ∨ c = 43 ∨ c = 47) →
      (char_to_index c).bind index_to_char = Except.ok c) := by
  have hbdd : ∀ c : Nat, c < 123 →
      ((65 ≤ c ∧ c ≤ 90) ∨ (97 ≤ c ∧ c ≤ 122) ∨ (48 ≤ c ∧ c ≤ 57) ∨ c = 43 ∨ c = 47) →
      (char_to_index c).bind index_to_char = Except.ok c := by decide
  exact ⟨fun i h => itc_ctc_bind i (by omega), fun c hc => hbdd c (by omega) hc⟩

theorem c2_bijection_witness :
    (index_to_char 0).bind char_to_index = Except.ok 0 ∧
    (char_to_index 47).bind index_to_char = Except.ok 47 :=
  ⟨c2_bijection.1 0 (by decide), c2_bijection.2 47 (by decide)⟩

/-- Claim C3: `index_to_char` maps 0-25 to `'A'`-`'Z'` (65-90), 26-51 to
`'a'`-`'z'` (97-122), 52-61 to `'0'`-`'9'` (48-57), 62 to `'+'` (43),
63 to `'/'` (47), and errors on every other byte-range input. -/
theorem c3_index_to_char_spec : ∀ index : Nat, index < 256 →
    (index ≤ 25 → index_to_char index = Except.ok (index + 65)) ∧
    (26 ≤ index → index ≤ 51 → index_to_char index = Except.ok (index + 71)) ∧
    (52 ≤ index → index ≤ 61 → index_to_char index = Except.ok (index - 4)) ∧
    (index = 62 → index_to_char index = Except.ok 43) ∧
    (index = 63 → index_to_char index = Except.ok 47) ∧
    (63 < index →
      index_to_char index = Except.error "Invalid ascii character index encountered") := by
  intro i hi
  unfold index_to_char saturating_add saturating_sub UPPERCASEOFFSET LOWERCASEOFFSET DIGITOFFSET
  refine ⟨fun h => ?_, fun h h' => ?_, fun h h' => ?_, fun h => ?_, fun h => ?_, fun h => ?_⟩
  · rw [if_pos h]
    congr 1
    omega
  · rw [if_neg (by omega), if_pos h']
    congr 1
    omega
  · rw [if_neg (by omega), if_neg (by omega), if_pos h']
  · subst h
    rfl
  · subst h
    rfl
  · rw [if_neg (by omega), if_neg (by omega), if_neg (by omega), if_neg (by omega),
      if_neg (by omega)]

theorem c3_index_to_char_spec_witness :
    ((25 : Nat) ≤ 25 → index_to_char 25 = Except.ok 90) ∧
    (26 ≤ (25 : Nat) → (25 : Nat) ≤ 51 → index_to_char 25 = Except.ok 96) ∧
    (52 ≤ (25 : Nat) → (25 : Nat) ≤ 61 → index_to_char 25 = Except.ok 21) ∧
    ((25 : Nat) = 62 → index_to_char 25 = Except.ok 43) ∧
    ((25 : Nat) = 63 → index_to_char 25 = Except.ok 47) ∧
    (63 < (25 : Nat) →
      index_to_char 25 = Except.error "Invalid ascii character index encountered") :=
  c3_index_to_char_spec 25 (by decide)

/-- Claim C4: `char_to_index` maps `'A'`-`'Z'` (65-90) to 0-25, `'a'`-`'z'`
(97-122) to 26-51, `'0'`-`'9'` (48-57) to 52-61, `'+'` (43) to 62,
`'/'` (47) to 63, and errors on every byte outside the alphabet. -/
theorem c4_char_to_index_spec : ∀ c : Nat, c < 256 →
    (65 ≤ c → c ≤ 90 → char_to_index c = Except.ok (c - 65)) ∧
    (97 ≤ c → c ≤ 122 → char_to_index c = Except.ok (c - 71)) ∧
    (48 ≤ c → c ≤ 57 → char_to_index c = Except.ok (c + 4)) ∧
    (c = 43 → char_to_index c = Except.ok 62) ∧
    (c = 47 → char_to_index c = Except.ok 63) ∧
    (¬((65 ≤ c ∧ c ≤ 90) ∨ (97 ≤ c ∧ c ≤ 122) ∨ (48 ≤ c ∧ c ≤ 57) ∨ c = 43 ∨ c = 47) →
      char_to_index c = Except.error "Invalid base64 char encountered") := by
  intro c hc
  unfold char_to_index saturating_add saturating_sub UPPERCASEOFFSET LOWERCASEOFFSET DIGITOFFSET
  refine ⟨fun h h' => ?_, fun h h' => ?_, fun h h' => ?_, fun h => ?_, fun h => ?_, fun h => ?_⟩
  · rw [if_pos ⟨h, h'⟩]
  · rw [if_neg (by omega), if_pos ⟨h, h'⟩]
  · rw [if_neg (by omega), if_neg (by omega), if_pos ⟨h, h'⟩]
    congr 1
    omega
  · subst h
    rfl
  · subst h
    rfl
  · rw [if_neg (by omega), if_neg (by omega), if_neg (by omega), if_neg (by omega),
      if_neg (by omega)]

theorem c4_char_to_index_spec_witness :
    (65 ≤ (61 : Nat) → (61 : Nat) ≤ 90 → char_to_index 61 = Except.ok 0) ∧
    (97 ≤ (61 : Nat) → (61 : Nat) ≤ 122 → char_to_index 61 = Except.ok 0) ∧
    (48 ≤ (61 : Nat) → (61 : Nat) ≤ 57 → char_to_index 61 = Except.ok 65) ∧
    ((61 : Nat) = 43 → char_to_index 61 = Except.ok 62) ∧
    ((61 : Nat) = 47 → char_to_index 61 = Except.ok 63) ∧
    (¬((65 ≤ (61 : Nat) ∧ (61 : Nat) ≤ 90) ∨ (97 ≤ (61 : Nat) ∧ (61 : Nat) ≤ 122) ∨
        (48 ≤ (61 : Nat) ∧ (61 : Nat) ≤ 57) ∨ (61 : Nat) = 43 ∨ (61 : Nat) = 47) →
      char_to_index 61 = Except.error "Invalid base64 char encountered") :=
  c4_char_to_index_spec 61 (by decide)

/-- Claim C5: `split_bytes` and `combine_bytes` are mutually inverse:
recombining the four 6-bit values split from any 3-byte group gives back
the group, and splitting the 3 bytes combined from any four 6-bit values
gives back the values. -/
theorem c5_split_combine_inverse :
    (∀ b0 b1 b2 : Nat, b0 < 256 → b1 < 256 → b2 < 256 →
      combine_bytes (split_bytes b0 b1 b2).1 (split_bytes b0 b1 b2).2.1
        (split_bytes b0 b1 b2).2.2.1 (split_bytes b0 b1 b2).2.2.2 = (b0, b1, b2)) ∧
    (∀ i0 i1 i2 i3 : Nat, i0 ≤ 63 → i1 ≤ 63 → i2 ≤ 63 → i3 ≤ 63 →
      split_bytes (combine_bytes i0 i1 i2 i3).1 (combine_bytes i0 i1 i2 i3).2.1
        (combine_bytes i0 i1 i2 i3).2.2 = (i0, i1, i2, i3)) :=
  ⟨fun b0 b1 b2 h0 h1 h2 => combine_split b0 b1 b2 h0 h1 h2,
   fun i0 i1 i2 i3 h0 h1 h2 h3 =>
     split_combine i0 i1 i2 i3 (by omega) (by omega) (by omega) (by omega)⟩

theorem c5_split_combine_inverse_witness :
    combine_bytes (split_bytes 200 100 50).1 (split_bytes 200 100 50).2.1
        (split_bytes 200 100 50).2.2.1 (split_bytes 200 100 50).2.2.2 = (200, 100, 50) ∧
    split_bytes (combine_bytes 10 20 30 63).1 (combine_bytes 10 20 30 63).2.1
        (combine_bytes 10 20 30 63).2.2 = (10, 20, 30, 63) :=
  ⟨c5_split_combine_inverse.1 200 100 50 (by decide) (by decide) (by decide),
   c5_split_combine_inverse.2 10 20 30 63 (by decide) (by decide) (by decide) (by decide)⟩

/-- Claim C9: encoding `[0, 1, 2]` into any 4-byte output buffer succeeds
with the ASCII text `"AAEC"` (bytes `[65, 65, 69, 67]`), and decoding
`"AAEC"` into any 3-byte output buffer succeeds with `[0, 1, 2]`. -/
theorem c9_concrete_vector : ∀ out out2 : List Nat, out.length = 4 → out2.length = 3 →
    encode [0, 1, 2] out = (Except.ok (), [65, 65, 69, 67]) ∧
    decode [65, 65, 69, 67] out2 = (Except.ok (), [0, 1, 2]) := by
  intro out out2 h h2
  rcases out with _ | ⟨a, _ | ⟨b, _ | ⟨c, _ | ⟨d, rest⟩⟩⟩⟩ <;> simp_all
  rcases out2 with _ | ⟨x, _ | ⟨y, _ | ⟨z, rest2⟩⟩⟩ <;> simp_all
  subst h h2
  exact ⟨rfl, rfl⟩

theorem c9_concrete_vector_witness :
    encode [0, 1, 2] [0, 0, 0, 0] = (Except.ok (), [65, 65, 69, 67]) ∧
    decode [65, 65, 69, 67] [7, 7, 7] = (Except.ok (), [0, 1, 2]) :=
  c9_concrete_vector [0, 0, 0, 0] [7, 7, 7] rfl rfl

/-- Claim C1: for every byte sequence whose length is a multiple of 3,
encoding into a buffer of 4/3 the input length succeeds, and decoding
the encoded output into a buffer of 3/4 its length succeeds and
reproduces the input exactly. -/
theorem c1_round_trip (data out out2 : List Nat) (hb : ∀ b ∈ data, b < 256)
    (hlen : data.length % 3 = 0) (hout : out.length = data.length * 4 / 3)
    (hout2 : out2.length = data.length) :
    (encode data out).1 = Except.ok () ∧
    decode (encode data out).2 out2 = (Except.ok (), data) := by
  obtain ⟨enc, henc, hlenc, hdec⟩ := encode_go_spec data out hb hlen
  have hdrop : out.drop (data.length * 4 / 3) = [] :=
    List.drop_eq_nil_of_le (by omega)
  have hencfull : encode data out = (Except.ok (), enc) := by
    rw [encode_eq_go data out hlen hout, henc, hdrop, List.append_nil]
  rw [hencfull]
  refine ⟨rfl, ?_⟩
  show decode enc out2 = (Except.ok (), data)
  have h4 : enc.length % 4 = 0 := by omega
  have hlen2 : out2.length = enc.length * 3 / 4 := by omega
  rw [decode_eq_go enc out2 h4 hlen2, hdec out2,
    List.drop_eq_nil_of_le (le_of_eq hout2), List.append_nil]

theorem c1_round_trip_witness :
    (encode [0, 1, 2] [0, 0, 0, 0]).1 = Except.ok () ∧
    decode (encode [0, 1, 2] [0, 0, 0, 0]).2 [9, 9, 9] = (Except.ok (), [0, 1, 2]) :=
  c1_round_trip [0, 1, 2] [0, 0, 0, 0] [9, 9, 9] (by decide) (by decide) (by decide) (by decide)

/-- Claim C6: `encode` fails with the input-length error exactly when the
input length is not a multiple of 3 (taking precedence over the output
check), and, on a multiple-of-3 input, fails with the output-length
error exactly when the output buffer is not 4/3 the input length;
`decode` behaves symmetrically with 4 and 3/4; and on any length error
the output buffer is left untouched. -/
theorem c6_length_contract : ∀ data out : List Nat,
    ((encode data out).1 = Except.error "Input data must be a multiple of 3 bytes" ↔
      data.length % 3 ≠ 0) ∧
    (data.length % 3 = 0 →
      ((encode data out).1 = Except.error "Output data length should be 4/3 input data length" ↔
        out.length ≠ data.length * 4 / 3)) ∧
    (data.length % 3 ≠ 0 ∨ out.length ≠ data.length * 4 / 3 → (encode data out).2 = out) ∧
    ((decode data out).1 = Except.error "Input data must be a multiple of 4 bytes" ↔
      data.length % 4 ≠ 0) ∧
    (data.length % 4 = 0 →
      ((decode data out).1 = Except.error "Output data length should be 3/4 input data length" ↔
        out.length ≠ data.length * 3 / 4)) ∧
    (data.length % 4 ≠ 0 ∨ out.length ≠ data.length * 3 / 4 → (decode data out).2 = out) := by
  intro data out
  have he := encode_cases data out
  have hd := decode_cases data out
  refine ⟨?_, ?_, ?_, ?_, ?_, ?_⟩
  · rcases he with ⟨h3, heq⟩ | ⟨h3, hout, heq⟩ | ⟨h3, hout, heq⟩
    · rw [heq]
      exact iff_of_true rfl h3
    · rw [heq]
      dsimp only
      exact iff_of_false (by decide) (fun h => h h3)
    · rw [heq]
      exact iff_of_false (fun h => absurd (encode_go_error data out _ h) (by decide))
        (fun h => h h3)
  · intro h3'
    rcases he with ⟨h3, heq⟩ | ⟨h3, hout, heq⟩ | ⟨h3, hout, heq⟩
    · exact absurd h3' h3
    · rw [heq]
      exact iff_of_true rfl hout
    · rw [heq]
      exact iff_of_false (fun h => absurd (encode_go_error data out _ h) (by decide))
        (fun h => h hout)
  · intro hcond
    rcases he with ⟨h3, heq⟩ | ⟨h3, hout, heq⟩ | ⟨h3, hout, heq⟩
    · rw [heq]
    · rw [heq]
    · rcases hcond with h | h
      · exact absurd h3 h
      · exact absurd hout h
  · rcases hd with ⟨h4, heq⟩ | ⟨h4, hout, heq⟩ | ⟨h4, hout, heq⟩
    · rw [heq]
      exact iff_of_true rfl h4
    · rw [heq]
      dsimp only
      exact iff_of_false (by decide) (fun h => h h4)
    · rw [heq]
      exact iff_of_false (fun h => absurd (decode_go_error data out _ h) (by decide))
        (fun h => h h4)
  · intro h4'
    rcases hd with ⟨h4, heq⟩ | ⟨h4, hout, heq⟩ | ⟨h4, hout, heq⟩
    · exact absurd h4' h4
    · rw [heq]
      exact iff_of_true rfl hout
    · rw [heq]
      exact iff_of_false (fun h => absurd (decode_go_error data out _ h) (by decide))
        (fun h => h hout)
  · intro hcond
    rcases hd with ⟨h4, heq⟩ | ⟨h4, hout, heq⟩ | ⟨h4, hout, heq⟩
    · rw [heq]
    · rw [heq]
    · rcases hcond with h | h
      · exact absurd h4 h
      · exact absurd hout h

theorem c6_length_contract_witness :
    (encode [0, 0, 0, 0] [7, 7]).1 = Except.error "Input data must be a multiple of 3 bytes" ∧
    (encode [0, 0, 0, 0] [7, 7]).2 = [7, 7] ∧
    (decode [65, 65, 65, 65] [7]).1 =
      Except.error "Output data length should be 3/4 input data length" ∧
    (decode [65, 65, 65, 65] [7]).2 = [7] :=
  ⟨(c6_length_contract [0, 0, 0, 0] [7, 7]).1.mpr (by decide),
   (c6_length_contract [0, 0, 0, 0] [7, 7]).2.2.1 (Or.inl (by decide)),
   ((c6_length_contract [65, 65, 65, 65] [7]).2.2.2.2.1 (by decide)).mpr (by decide),
   (c6_length_contract [65, 65, 65, 65] [7]).2.2.2.2.2 (Or.inr (by decide))⟩

/-- Claim C7: for every input passing both of `decode`'s length checks,
`decode` fails with the invalid-character error exactly when some input
byte is outside the 64-character alphabet, and succeeds when every byte
is in the alphabet. -/
theorem c7_invalid_character (data out : List Nat) (h4 : data.length % 4 = 0)
    (hout : out.length = data.length * 3 / 4) :
    ((decode data out).1 = Except.error "Invalid base64 char encountered" ↔
      ∃ c ∈ data, ∀ i, char_to_index c ≠ Except.ok i) ∧
    ((∀ c ∈ data, ∃ i, char_to_index c = Except.ok i) →
      (decode data out).1 = Except.ok ()) := by
  rw [decode_eq_go data out h4 hout]
  constructor
  · constructor
    · intro h
      by_contra hno
      push_neg at hno
      have hok := decode_go_ok data out hno
      rw [h] at hok
      cases hok
    · intro hex
      exact decode_go_err data out h4 hex
  · intro hv
    exact decode_go_ok data out hv

theorem c7_invalid_character_witness :
    (decode [65, 61, 65, 65] [0, 0, 0]).1 = Except.error "Invalid base64 char encountered" ∧
    (decode [65, 32, 65, 65] [0, 0, 0]).1 = Except.error "Invalid base64 char encountered" ∧
    (decode [65, 66, 67, 68] [0, 0, 0]).1 = Except.ok () :=
  ⟨(c7_invalid_character [65, 61, 65, 65] [0, 0, 0] (by decide) (by decide)).1.mpr
      ⟨61, by decide, fun i h => by
        rw [show char_to_index 61 = Except.error "Invalid base64 char encountered" from rfl] at h
        exact Except.noConfusion h⟩,
   (c7_invalid_character [65, 32, 65, 65] [0, 0, 0] (by decide) (by decide)).1.mpr
      ⟨32, by decide, fun i h => by
        rw [show char_to_index 32 = Except.error "Invalid base64 char encountered" from rfl] at h
        exact Except.noConfusion h⟩,
   (c7_invalid_character [65, 66, 67, 68] [0, 0, 0] (by decide) (by decide)).2 (by
      intro c hc
      fin_cases hc
      · exact ⟨0, rfl⟩
      · exact ⟨1, rfl⟩
      · exact ⟨2, rfl⟩
      · exact ⟨3, rfl⟩)⟩

/-- Claim C8: the four 6-bit values split from any 3-byte chunk are at
most 63, so on length-valid input the invalid-index branch of `encode`
is unreachable and `encode` always succeeds. -/
theorem c8_encode_total :
    (∀ b0 b1 b2 : Nat, b0 < 256 → b1 < 256 → b2 < 256 →
      (split_bytes b0 b1 b2).1 ≤ 63 ∧ (split_bytes b0 b1 b2).2.1 ≤ 63 ∧
      (split_bytes b0 b1 b2).2.2.1 ≤ 63 ∧ (split_bytes b0 b1 b2).2.2.2 ≤ 63) ∧
    (∀ data out : List Nat, (∀ b ∈ data, b < 256) → data.length % 3 = 0 →
      out.length = data.length * 4 / 3 → (encode data out).1 = Except.ok ()) := by
  constructor
  · intro b0 b1 b2 h0 h1 h2
    have h := split_bytes_lt b0 b1 b2 h0 h1 h2
    omega
  · intro data out hb h3 hout
    obtain ⟨enc, henc, hlenc, -⟩ := encode_go_spec data out hb h3
    rw [encode_eq_go data out h3 hout, henc]

theorem c8_encode_total_witness :
    ((split_bytes 255 255 255).1 ≤ 63 ∧ (split_bytes 255 255 255).2.1 ≤ 63 ∧
      (split_bytes 255 255 255).2.2.1 ≤ 63 ∧ (split_bytes 255 255 255).2.2.2 ≤ 63) ∧
    (encode [250, 251, 252] [0, 0, 0, 0]).1 = Except.ok () :=
  ⟨c8_encode_total.1 255 255 255 (by decide) (by decide) (by decide),
   c8_encode_total.2 [250, 251, 252] [0, 0, 0, 0] (by decide) (by decide) (by decide)⟩

/-- Claim C10: when `decode` (with valid lengths) fails on chunk `j`, the
first `3 j` output positions hold the correctly decoded data of the `j`
completed chunks, every output byte from position `3 j` on is unchanged,
and chunk `j` of the input contains the invalid character; the failing
chunk's output is never partially written. -/
theorem c10_decode_frame (data out : List Nat) (h4 : data.length % 4 = 0)
    (hout : out.length = data.length * 3 / 4) (e : String)
    (he : (decode data out).1 = Except.error e) :
    ∃ j : Nat, 4 * j + 4 ≤ data.length ∧
      (∃ c ∈ (data.drop (4 * j)).take 4, char_to_index c = Except.error e) ∧
      decode (data.take (4 * j)) (out.take (3 * j)) =
        (Except.ok (), (decode data out).2.take (3 * j)) ∧
      (decode data out).2.drop (3 * j) = out.drop (3 * j) := by
  have heq : decode data out = decode_go data out := decode_eq_go data out h4 hout
  rw [heq] at he ⊢
  obtain ⟨j, hj1, hj2, hj3, hj4⟩ := decode_go_frame data out h4 e he
  refine ⟨j, hj1, hj2, ?_, hj4⟩
  have htl : (data.take (4 * j)).length = 4 * j := by
    rw [List.length_take]
    omega
  have htl2 : (out.take (3 * j)).length = 3 * j := by
    rw [List.length_take]
    omega
  have h4' : (data.take (4 * j)).length % 4 = 0 := by
    rw [htl]
    omega
  have hout' : (out.take (3 * j)).length = (data.take (4 * j)).length * 3 / 4 := by
    rw [htl, htl2]
    omega
  rw [decode_eq_go _ _ h4' hout']
  exact hj3

theorem c10_decode_frame_witness :
    ∃ j : Nat, 4 * j + 4 ≤ ([65, 65, 65, 65, 61, 65, 65, 65] : List Nat).length ∧
      (∃ c ∈ (([65, 65, 65, 65, 61, 65, 65, 65] : List Nat).drop (4 * j)).take 4,
        char_to_index c = Except.error "Invalid base64 char encountered") ∧
      decode (([65, 65, 65, 65, 61, 65, 65, 65] : List Nat).take (4 * j))
          (([9, 9, 9, 9, 9, 9] : List Nat).take (3 * j)) =
        (Except.ok (),
          ((decode [65, 65, 65, 65, 61, 65, 65, 65] [9, 9, 9, 9, 9, 9]).2).take (3 * j)) ∧
      ((decode [65, 65, 65, 65, 61, 65, 65, 65] [9, 9, 9, 9, 9, 9]).2).drop (3 * j) =
        ([9, 9, 9, 9, 9, 9] : List Nat).drop (3 * j) :=
  c10_decode_frame [65, 65, 65, 65, 61, 65, 65, 65] [9, 9, 9, 9, 9, 9] (by decide) (by decide)
    "Invalid base64 char encountered" (by decide)

end BBBase64
